import Mathlib

/-!
Verification of the PjRtEvent asynchronous completion primitive from
tensorflow/compiler/xla/pjrt/pjrt_event.h.

The header wraps a TFRT AsyncValueRef<T>: a reference-counted shared cell
holding either "not yet resolved" or a concrete value of type T.  The TFRT
implementation itself is an external collaborator (not part of this
repository's sources), so the cell/store layer below is modelled from the
spec's waitable-value interface: createUnconstructed, createAvailable,
isAvailable, copyReference, resolve (single-assignment; a second resolve is
an assertion-flagged contract violation), registerContinuation (may run
inline when already resolved) and await.  Everything above that layer —
PjRtEventContext, PjRtEvent<T>::Event, CreateUnSetEvent, the three
PjRtEvent constructors, BlockHostUntilReady and OnReady — is translated
directly from the header.

Sharing is represented by cell identity: an AsyncValueRef is a cell index
(Option Nat; none models a null ref, as in a default-constructed Event),
and CopyRef returns the same index.  Callback registration is observable
through a per-cell log: each continuation has a numeric id, and `fired`
records, in order, every invocation of a continuation together with the
value it received.
-/

/-- Keys returned by an implementation-specific handler when a client starts
to block on an event (PjRtEventContext::ProfilingKeys).  The single field is
a uint64, modelled as a Nat reduced modulo 2^64. -/
structure ProfilingKeys where
  traceme_context_id : Nat
deriving DecidableEq

/-- Reduction of a C++ integer initializer into uint64_t: the value modulo
2^64, as a Nat.  The member initializer `traceme_context_id = -1` goes
through this conversion. -/
def uint64OfInt (i : Int) : Nat := (i % (2 : Int) ^ 64).toNat

/-- Default-constructed ProfilingKeys: traceme_context_id is initialized
from the literal -1 converted to uint64_t. -/
def ProfilingKeys.mkDefault : ProfilingKeys := ⟨uint64OfInt (-1)⟩

/-- Default on_block_start handler installed by the PjRtEvent constructors:
`[]() { return PjRtEventContext::ProfilingKeys(); }`. -/
def defaultOnBlockStart : Unit → ProfilingKeys := fun _ => ProfilingKeys.mkDefault

/-- Default on_block_end handler installed by the PjRtEvent constructors:
`[](PjRtEventContext::ProfilingKeys) {}`. -/
def defaultOnBlockEnd : ProfilingKeys → Unit := fun _ => ()

/-- Modelled from the spec: one shared waitable cell of the external TFRT
AsyncValue collaborator (not under the repository sources).  `value = none`
means unresolved; `pending` holds ids of continuations registered before
resolution; `fired` logs every continuation invocation with the value it
was handed. -/
structure Cell (T : Type) where
  value : Option T
  pending : List Nat
  fired : List (Nat × T)
deriving DecidableEq

/-- Modelled from the spec: the heap of shared cells.  `mem` maps a cell
index to its cell; `next` is the next fresh index. -/
structure AVStore (T : Type) where
  mem : Nat → Option (Cell T)
  next : Nat

/-- Allocate a fresh cell, returning the new store and the cell's index. -/
def AVStore.alloc (σ : AVStore T) (c : Cell T) : AVStore T × Nat :=
  (⟨fun j => if j = σ.next then some c else σ.mem j, σ.next + 1⟩, σ.next)

/-- Replace the cell at index `i`. -/
def AVStore.setCell (σ : AVStore T) (i : Nat) (c : Cell T) : AVStore T :=
  ⟨fun j => if j = i then some c else σ.mem j, σ.next⟩

/-- The value stored at cell `i`, if the cell exists and is resolved. -/
def AVStore.valAt (σ : AVStore T) (i : Nat) : Option T :=
  match σ.mem i with
  | some c => c.value
  | none => none

/-- IsAvailable on an AsyncValueRef (a ref is a cell index; none is a null
ref). -/
def AVStore.isAvailable (σ : AVStore T) (r : Option Nat) : Bool :=
  match r with
  | some i => (σ.valAt i).isSome
  | none => false

/-- Modelled from the spec: tfrt::MakeUnconstructedAsyncValueRef<T>() —
a fresh unresolved shared cell. -/
def MakeUnconstructedAsyncValueRef (σ : AVStore T) : AVStore T × Nat :=
  σ.alloc ⟨none, [], []⟩

/-- Modelled from the spec: tfrt::MakeAvailableAsyncValueRef<T>(v) —
a fresh already-resolved shared cell. -/
def MakeAvailableAsyncValueRef (σ : AVStore T) (v : T) : AVStore T × Nat :=
  σ.alloc ⟨some v, [], []⟩

/-- Modelled from the spec: AsyncValueRef<T>::emplace — the
single-assignment write.  Stores `v` into an unresolved cell and fires all
pending continuations with `v`.  Emplacing into an already-resolved cell
(or through a null/dangling ref) is a contract violation flagged by a debug
assertion, modelled as `none`. -/
def emplace (σ : AVStore T) (r : Option Nat) (v : T) : Option (AVStore T) :=
  match r with
  | none => none
  | some i =>
    match σ.mem i with
    | none => none
    | some c =>
      match c.value with
      | some _ => none
      | none =>
          some (σ.setCell i ⟨some v, [], c.fired ++ c.pending.map (fun id => (id, v))⟩)

/-- Modelled from the spec: AsyncValueRef<T>::AndThen — registers the
continuation with id `id` on the cell; if the cell is already resolved the
continuation runs inline with the resolved value, otherwise it is queued
until resolution.  Returns `none` only for a null/dangling ref. -/
def avrAndThen (σ : AVStore T) (r : Option Nat) (id : Nat) : Option (AVStore T) :=
  match r with
  | none => none
  | some i =>
    match σ.mem i with
    | none => none
    | some c =>
      match c.value with
      | some v => some (σ.setCell i { c with fired := c.fired ++ [(id, v)] })
      | none => some (σ.setCell i { c with pending := c.pending ++ [id] })

/-- PjRtEvent<T>::Event — wrapper for AsyncValueRef<T> used by clients that
do not natively use TFRT.  `avr` is the wrapped ref (none = null). -/
structure Event where
  avr : Option Nat
deriving DecidableEq

/-- Explicit Event() = default: creates an empty event with !this == true
(the wrapped avr is null). -/
def Event.empty : Event := ⟨none⟩

/-- Event copy constructor / copy assignment: avr(other.avr.CopyRef()) —
CopyRef shares the same underlying cell, so a copy holds the same index. -/
def Event.copy (e : Event) : Event := ⟨e.avr⟩

/-- Event::operator! : bool operator!() { return !avr; } — true iff the
wrapped AsyncValueRef is null. -/
def Event.opNot (e : Event) : Bool := e.avr.isNone

/-- Event::Set(T value) : avr.emplace(std::move(value)).  Must be called at
most once; a second call is flagged by the modelled assertion (none). -/
def Event.Set (σ : AVStore T) (e : Event) (v : T) : Option (AVStore T) :=
  emplace σ e.avr v

/-- PjRtEvent<T>::CreateUnSetEvent() :
return Event(tfrt::MakeUnconstructedAsyncValueRef<T>()). -/
def CreateUnSetEvent (T : Type) (σ : AVStore T) : AVStore T × Event :=
  let p := MakeUnconstructedAsyncValueRef (T := T) σ
  (p.1, ⟨some p.2⟩)

/-- PjRtEventContext: holds the dummy TFRT HostContext (a unique_ptr) used
by PjRtEvents to call Await.  The HostContext itself carries no data we
need, so it is modelled as Unit; `none` models a null pointer. -/
structure PjRtEventContext where
  host_ctx : Option Unit

/-- PjRtEventContext::Create() — constructs an internal host context. -/
def PjRtEventContext.Create : PjRtEventContext := ⟨some ()⟩

/-- PjRtEvent<T>: the future.  `event_` is the wrapped AsyncValueRef (cell
index; none = null), `on_block_start_`/`on_block_end_` are the stored
profiling hooks, and `host_ctx_` is the non-owning HostContext pointer
(none = nullptr). -/
structure PjRtEvent (T : Type) where
  event_ : Option Nat
  on_block_start_ : Unit → ProfilingKeys
  on_block_end_ : ProfilingKeys → Unit
  host_ctx_ : Option Unit

/-- Constructor for an already-available PjRtEvent:
`PjRtEvent(T t)` — event_(MakeAvailableAsyncValueRef<T>(t)), default no-op
hooks, host_ctx_(nullptr). -/
def PjRtEvent.ofValue (σ : AVStore T) (t : T) : AVStore T × PjRtEvent T :=
  let p := MakeAvailableAsyncValueRef σ t
  (p.1, ⟨some p.2, defaultOnBlockStart, defaultOnBlockEnd, none⟩)

/-- Constructor used by clients that natively use TFRT:
`PjRtEvent(HostContext*, AsyncValueRef<T>, on_block_start, on_block_end)`. -/
def PjRtEvent.ofTfrt (T : Type) (host_ctx : Option Unit) (event : Option Nat)
    (on_block_start : Unit → ProfilingKeys) (on_block_end : ProfilingKeys → Unit) :
    PjRtEvent T :=
  ⟨event, on_block_start, on_block_end, host_ctx⟩

/-- The TFRT-native constructor invoked with its default hook arguments. -/
def PjRtEvent.ofTfrtDefaults (T : Type) (host_ctx : Option Unit) (event : Option Nat) :
    PjRtEvent T :=
  PjRtEvent.ofTfrt T host_ctx event defaultOnBlockStart defaultOnBlockEnd

/-- Constructor used by non-TFRT clients:
`PjRtEvent(const PjRtEventContext& ctx, Event event, on_block_start,
on_block_end)` — event_(std::move(event.avr)), host_ctx_(ctx.host_ctx.get()). -/
def PjRtEvent.ofEvent (T : Type) (ctx : PjRtEventContext) (event : Event)
    (on_block_start : Unit → ProfilingKeys) (on_block_end : ProfilingKeys → Unit) :
    PjRtEvent T :=
  ⟨event.avr, on_block_start, on_block_end, ctx.host_ctx⟩

/-- The context-mediated constructor invoked with its default hook
arguments. -/
def PjRtEvent.ofEventDefaults (T : Type) (ctx : PjRtEventContext) (event : Event) :
    PjRtEvent T :=
  PjRtEvent.ofEvent T ctx event defaultOnBlockStart defaultOnBlockEnd

/-- Profiling-hook invocations performed by a call to BlockHostUntilReady. -/
inductive HookEvent where
  | blockStart
  | blockEnd
deriving DecidableEq

/-- Outcome of one BlockHostUntilReady call.  `ok v awaited hooks` means the
call returned `v`; `awaited` records whether the thread suspended in
host_ctx_->Await, and `hooks` lists, in order, the invocations of the
stored on_block_start_/on_block_end_ hooks the body performed.
`nullCtxDeref` marks the null-pointer dereference `host_ctx_->Await` with
host_ctx_ == nullptr; `blocksForever` marks an Await no concurrent
resolution ever completes; `invalidRef` marks reading through a
null/dangling event_ ref. -/
inductive BlockOutcome (T : Type) where
  | ok (v : T) (awaited : Bool) (hooks : List HookEvent)
  | nullCtxDeref
  | blocksForever
  | invalidRef
deriving DecidableEq

/-- PjRtEvent<T>::BlockHostUntilReady():
```
if (!event_.IsAvailable()) {
  host_ctx_->Await({event_.CopyRCRef()});
}
DCHECK(event_.IsConcrete());
return *event_;
```
The body performs no invocation of on_block_start_ or on_block_end_, so the
hook trace of every outcome is [].  `env` models the concurrent producer:
the store transition that takes effect while the thread is suspended in
Await (Await returns once the cell resolves, so the call completes exactly
when `env` leaves the cell resolved). -/
def PjRtEvent.BlockHostUntilReady (σ : AVStore T) (f : PjRtEvent T)
    (env : AVStore T → AVStore T) : BlockOutcome T :=
  match f.event_ with
  | none => .invalidRef
  | some i =>
    match σ.valAt i with
    | some v => .ok v false []
    | none =>
      match f.host_ctx_ with
      | none => .nullCtxDeref
      | some _ =>
        match (env σ).valAt i with
        | some v => .ok v true []
        | none => .blocksForever

/-- PjRtEvent<T>::OnReady(callback): event_.AndThen([...]{
DCHECK(event.IsConcrete()); callback(*event); }).  The callback is
identified by `id`; its invocations (with the value delivered) appear in
the cell's fired log. -/
def PjRtEvent.OnReady (σ : AVStore T) (f : PjRtEvent T) (id : Nat) :
    Option (AVStore T) :=
  avrAndThen σ f.event_ id

/-- Consumer/producer operations that can touch the shared store after a
point of interest: a resolve attempt through a handle, or a callback
registration on a ref.  (BlockHostUntilReady is read-only on the store and
is quantified separately.) -/
inductive Op (T : Type) where
  | set (e : Event) (v : T)
  | onReady (r : Option Nat) (id : Nat)

/-- Run one operation; a flagged contract violation (failed Set) or invalid
ref leaves the store unchanged. -/
def runOp (σ : AVStore T) : Op T → AVStore T
  | .set e v => (Event.Set σ e v).getD σ
  | .onReady r id => (avrAndThen σ r id).getD σ

/-- Run a sequence of operations. -/
def runOps (σ : AVStore T) : List (Op T) → AVStore T
  | [] => σ
  | op :: ops => runOps (runOp σ op) ops

/-- The values delivered to continuation `id` at cell `i`: snd of the fired
log entries with first component `id`. -/
def firedFor (σ : AVStore T) (i id : Nat) : List T :=
  match σ.mem i with
  | some c => (c.fired.filter (fun p => p.1 == id)).map Prod.snd
  | none => []

/-- An operation that never registers continuation `id`. -/
def OpAvoidsId (id : Nat) : Op T → Prop
  | .set _ _ => True
  | .onReady _ id2 => id2 ≠ id

/-! ### Store lemmas -/

theorem mem_setCell (σ : AVStore T) (j : Nat) (c : Cell T) (i : Nat) :
    (σ.setCell j c).mem i = if i = j then some c else σ.mem i := rfl

theorem valAt_setCell (σ : AVStore T) (j : Nat) (c : Cell T) (i : Nat) :
    (σ.setCell j c).valAt i = if i = j then c.value else σ.valAt i := by
  by_cases h : i = j <;> simp [AVStore.setCell, AVStore.valAt, h]

theorem valAt_emplace_getD (σ : AVStore T) (r : Option Nat) (w : T) (i : Nat) (v : T)
    (h : σ.valAt i = some v) : ((emplace σ r w).getD σ).valAt i = some v := by
  cases r with
  | none => simpa [emplace]
  | some j =>
    cases hm : σ.mem j with
    | none => simpa [emplace, hm]
    | some c =>
      cases hv : c.value with
      | some u => simpa [emplace, hm, hv]
      | none =>
        have hij : i ≠ j := by
          intro hh
          subst hh
          simp [AVStore.valAt, hm, hv] at h
        simpa [emplace, hm, hv, valAt_setCell, hij]

theorem valAt_andThen_getD (σ : AVStore T) (r : Option Nat) (id : Nat) (i : Nat) :
    ((avrAndThen σ r id).getD σ).valAt i = σ.valAt i := by
  cases r with
  | none => simp [avrAndThen]
  | some j =>
    cases hm : σ.mem j with
    | none => simp [avrAndThen, hm]
    | some c =>
      by_cases hij : i = j
      · subst hij
        cases hv : c.value with
        | some u => simp [avrAndThen, hm, hv, AVStore.valAt, AVStore.setCell]
        | none => simp [avrAndThen, hm, hv, AVStore.valAt, AVStore.setCell]
      · cases hv : c.value with
        | some u => simp [avrAndThen, hm, hv, valAt_setCell, hij]
        | none => simp [avrAndThen, hm, hv, valAt_setCell, hij]

theorem valAt_runOps (σ : AVStore T) (i : Nat) (v : T)
    (h : σ.valAt i = some v) (ops : List (Op T)) :
    (runOps σ ops).valAt i = some v := by
  induction ops generalizing σ with
  | nil => exact h
  | cons op ops ih =>
    refine ih (runOp σ op) ?_
    cases op with
    | set e w => exact valAt_emplace_getD σ e.avr w i v h
    | onReady r id =>
      show ((avrAndThen σ r id).getD σ).valAt i = some v
      rw [valAt_andThen_getD]
      exact h

theorem block_of_valAt (σ : AVStore T) (f : PjRtEvent T) (i : Nat) (v : T)
    (hf : f.event_ = some i) (h : σ.valAt i = some v) (env : AVStore T → AVStore T) :
    PjRtEvent.BlockHostUntilReady σ f env = .ok v false [] := by
  simp [PjRtEvent.BlockHostUntilReady, hf, h]

theorem valAt_ofValue (σ : AVStore T) (v : T) :
    (PjRtEvent.ofValue σ v).1.valAt σ.next = some v := by
  simp [PjRtEvent.ofValue, MakeAvailableAsyncValueRef, AVStore.alloc, AVStore.valAt]

/-! ### Claim theorems (first group) -/

/-- C2: constructing an already-resolved future with `PjRtEvent(v)` and then
calling `BlockHostUntilReady` returns `v` immediately: the availability fast
path is taken, the thread never suspends in Await (awaited = false),
regardless of what any concurrent producer would do (env is arbitrary), and
the body invokes neither on_block_start_ nor on_block_end_ (empty hook
trace). -/
theorem ofValue_block_returns_immediately (T : Type) (σ : AVStore T) (v : T)
    (env : AVStore T → AVStore T) :
    PjRtEvent.BlockHostUntilReady (PjRtEvent.ofValue σ v).1 (PjRtEvent.ofValue σ v).2 env
      = BlockOutcome.ok v false [] :=
  block_of_valAt _ _ σ.next v rfl (valAt_ofValue σ v) env

/-- C7: a future built by the already-resolved constructor `PjRtEvent(T)`
has a null waiting-infrastructure pointer (host_ctx_ = nullptr), and every
subsequent call to BlockHostUntilReady — after any sequence of further
resolve attempts and callback registrations on the store — checks
availability first, takes the fast path, and never reaches the
`host_ctx_->Await` null dereference. -/
theorem ofValue_block_never_derefs_null_ctx (T : Type) (σ : AVStore T) (v : T)
    (ops : List (Op T)) (env : AVStore T → AVStore T) :
    (PjRtEvent.ofValue σ v).2.host_ctx_ = none ∧
    PjRtEvent.BlockHostUntilReady (runOps (PjRtEvent.ofValue σ v).1 ops)
      (PjRtEvent.ofValue σ v).2 env ≠ BlockOutcome.nullCtxDeref := by
  refine ⟨rfl, ?_⟩
  rw [block_of_valAt _ _ σ.next v rfl (valAt_runOps _ _ _ (valAt_ofValue σ v) ops) env]
  intro hc
  exact BlockOutcome.noConfusion hc

/-- C8: a default-constructed Event is empty — it wraps a null
AsyncValueRef and !handle is true — while CreateUnSetEvent returns a handle
backed by a fresh unresolved shared cell, so !handle is false and the cell
is not yet available. -/
theorem default_event_empty_unset_event_fresh (T : Type) (σ : AVStore T) :
    Event.empty.opNot = true ∧ Event.empty.avr = none ∧
    (CreateUnSetEvent T σ).2.opNot = false ∧
    (CreateUnSetEvent T σ).2.avr = some σ.next ∧
    (CreateUnSetEvent T σ).1.mem σ.next = some ⟨none, [], []⟩ ∧
    (CreateUnSetEvent T σ).1.isAvailable (CreateUnSetEvent T σ).2.avr = false := by
  refine ⟨rfl, rfl, rfl, rfl, ?_, ?_⟩
  · simp [CreateUnSetEvent, MakeUnconstructedAsyncValueRef, AVStore.alloc]
  · simp [CreateUnSetEvent, MakeUnconstructedAsyncValueRef, AVStore.alloc,
      AVStore.isAvailable, AVStore.valAt]

/-- C10: a default-constructed ProfilingKeys carries
traceme_context_id = 2^64 - 1 (the initializer -1 reduced modulo 2^64 into
uint64_t), and the default on_block_start handler installed by each of the
three PjRtEvent constructors returns ProfilingKeys with exactly that id. -/
theorem profiling_keys_default_max_uint64 :
    ProfilingKeys.mkDefault.traceme_context_id = 2 ^ 64 - 1 ∧
    uint64OfInt (-1) = 2 ^ 64 - 1 ∧
    (defaultOnBlockStart ()).traceme_context_id = 2 ^ 64 - 1 ∧
    (∀ (T : Type) (σ : AVStore T) (v : T),
      ((PjRtEvent.ofValue σ v).2.on_block_start_ ()).traceme_context_id = 2 ^ 64 - 1) ∧
    (∀ (T : Type) (hc : Option Unit) (r : Option Nat),
      ((PjRtEvent.ofTfrtDefaults T hc r).on_block_start_ ()).traceme_context_id
        = 2 ^ 64 - 1) ∧
    (∀ (T : Type) (ctx : PjRtEventContext) (e : Event),
      ((PjRtEvent.ofEventDefaults T ctx e).on_block_start_ ()).traceme_context_id
        = 2 ^ 64 - 1) := by
  have h : uint64OfInt (-1) = 2 ^ 64 - 1 := by decide
  exact ⟨h, h, h, fun _ _ _ => h, fun _ _ _ => h, fun _ _ _ => h⟩

/-! ### Concrete scenario values used by witnesses -/

/-- A one-cell store: a single unresolved cell at index 0. -/
def exStore : AVStore Nat := ⟨fun j => if j = 0 then some ⟨none, [], []⟩ else none, 1⟩

/-- A one-cell store: a single cell at index 0 already resolved to 7. -/
def exStoreResolved : AVStore Nat := ⟨fun j => if j = 0 then some ⟨some 7, [], []⟩ else none, 1⟩

/-- A producer handle wrapping cell 0. -/
def exHandle : Event := ⟨some 0⟩

/-- A future over cell 0, built through the context-mediated constructor
with default hooks. -/
def exFuture : PjRtEvent Nat :=
  PjRtEvent.ofEventDefaults Nat PjRtEventContext.Create exHandle

/-! ### Claim theorems (second group) -/

/-- C3: Set (resolve) may be called at most once per underlying shared
value: when the first `Set v` on an unresolved cell succeeds, a second
`Set w` through the same handle is a contract violation flagged by the
modelled assertion (`none`), not a normal success path. -/
theorem set_second_call_flagged (σ : AVStore T) (e : Event) (i : Nat) (c : Cell T)
    (v w : T) (he : e.avr = some i) (hc : σ.mem i = some c) (hu : c.value = none) :
    (Event.Set σ e v).isSome = true ∧
    Event.Set ((Event.Set σ e v).getD σ) e w = none := by
  constructor
  · simp [Event.Set, emplace, he, hc, hu]
  · simp [Event.Set, emplace, he, hc, hu, AVStore.setCell]

/-- Witness for C3 at a concrete input: cell 0 unresolved, first Set 5
succeeds, second Set 9 is flagged. -/
theorem set_second_call_flagged_w :
    (Event.Set exStore exHandle 5).isSome = true ∧
    Event.Set ((Event.Set exStore exHandle 5).getD exStore) exHandle 9 = none :=
  set_second_call_flagged exStore exHandle 0 ⟨none, [], []⟩ 5 9 rfl rfl rfl

/-- C5: a copy of a producer handle shares the same underlying cell as the
original (CopyRef duplicates the reference, never the state): resolving
through the copy makes the identical value observable through a future
constructed from the copy and through a future constructed from the
original, whatever contexts and hooks those futures carry. -/
theorem handle_copies_share_state (σ : AVStore T) (h : Event) (i : Nat) (c : Cell T)
    (v : T) (he : h.avr = some i) (hc : σ.mem i = some c) (hu : c.value = none) :
    Event.copy h = h ∧
    ∀ (ctx1 ctx2 : PjRtEventContext) (s1 s2 : Unit → ProfilingKeys)
      (e1 e2 : ProfilingKeys → Unit) (env : AVStore T → AVStore T),
      PjRtEvent.BlockHostUntilReady ((Event.Set σ (Event.copy h) v).getD σ)
        (PjRtEvent.ofEvent T ctx1 (Event.copy h) s1 e1) env = BlockOutcome.ok v false [] ∧
      PjRtEvent.BlockHostUntilReady ((Event.Set σ (Event.copy h) v).getD σ)
        (PjRtEvent.ofEvent T ctx2 h s2 e2) env = BlockOutcome.ok v false [] := by
  have hval : ((Event.Set σ (Event.copy h) v).getD σ).valAt i = some v := by
    simp [Event.Set, Event.copy, emplace, he, hc, hu, AVStore.valAt, AVStore.setCell]
  refine ⟨rfl, ?_⟩
  intro ctx1 ctx2 s1 s2 e1 e2 env
  exact ⟨block_of_valAt _ _ i v he hval env, block_of_valAt _ _ i v he hval env⟩

/-- Witness for C5 at a concrete input: resolve 7 through the copy of the
handle on cell 0; futures built from the copy and from the original both
return 7. -/
theorem handle_copies_share_state_w :
    PjRtEvent.BlockHostUntilReady ((Event.Set exStore (Event.copy exHandle) 7).getD exStore)
      (PjRtEvent.ofEvent Nat PjRtEventContext.Create (Event.copy exHandle)
        defaultOnBlockStart defaultOnBlockEnd) (fun s => s) = BlockOutcome.ok 7 false [] ∧
    PjRtEvent.BlockHostUntilReady ((Event.Set exStore (Event.copy exHandle) 7).getD exStore)
      (PjRtEvent.ofEvent Nat PjRtEventContext.Create exHandle
        defaultOnBlockStart defaultOnBlockEnd) (fun s => s) = BlockOutcome.ok 7 false [] :=
  (handle_copies_share_state exStore exHandle 0 ⟨none, [], []⟩ 7 rfl rfl rfl).2
    PjRtEventContext.Create PjRtEventContext.Create defaultOnBlockStart defaultOnBlockStart
    defaultOnBlockEnd defaultOnBlockEnd (fun s => s)

/-- C6: once a cell is resolved to v, the stored value never changes: after
any further sequence of resolve attempts or callback registrations, the
cell still holds v, and every BlockHostUntilReady on any future sharing the
cell takes the fast path and returns v — observation never mutates the
shared state. -/
theorem resolved_value_immutable (σ : AVStore T) (i : Nat) (v : T)
    (hres : σ.valAt i = some v) (ops : List (Op T)) :
    (runOps σ ops).valAt i = some v ∧
    ∀ (f : PjRtEvent T), f.event_ = some i → ∀ (env : AVStore T → AVStore T),
      PjRtEvent.BlockHostUntilReady (runOps σ ops) f env = BlockOutcome.ok v false [] := by
  refine ⟨valAt_runOps σ i v hres ops, ?_⟩
  intro f hf env
  exact block_of_valAt _ f i v hf (valAt_runOps σ i v hres ops) env

/-- Witness for C6 at a concrete input: cell 0 resolved to 7; after a
further (flagged) Set 9 and a late callback registration the cell still
holds 7 and blocking returns 7. -/
theorem resolved_value_immutable_w :
    (runOps exStoreResolved [Op.set exHandle 9, Op.onReady (some 0) 1]).valAt 0 = some 7 ∧
    PjRtEvent.BlockHostUntilReady
      (runOps exStoreResolved [Op.set exHandle 9, Op.onReady (some 0) 1])
      exFuture (fun s => s) = BlockOutcome.ok 7 false [] :=
  have h := resolved_value_immutable exStoreResolved 0 7 rfl
    [Op.set exHandle 9, Op.onReady (some 0) 1]
  ⟨h.1, h.2 exFuture rfl (fun s => s)⟩

/-! ### Claim theorems (multiple waiters) -/

theorem map_const_eq_replicate (fs : List α) (g : α → β) (b : β)
    (h : ∀ f ∈ fs, g f = b) : fs.map g = List.replicate fs.length b := by
  induction fs with
  | nil => rfl
  | cons f fs ih =>
    rw [List.map_cons, h f (List.mem_cons_self f fs), List.length_cons,
      List.replicate_succ, ih (fun x hx => h x (List.mem_cons_of_mem f hx))]

/-- C9: N threads blocked on copies of the same unresolved future all
unblock after the producer's single resolve lands: each of the N
BlockHostUntilReady calls suspends (awaited = true, the cell being
unresolved when the call starts), resumes once `Set v` has taken effect,
and returns the same value v — none of the calls is left blocked. -/
theorem concurrent_waiters_all_unblock (σ : AVStore T) (e : Event) (i : Nat) (c : Cell T)
    (v : T) (he : e.avr = some i) (hc : σ.mem i = some c) (hu : c.value = none)
    (N : Nat) (fs : List (PjRtEvent T)) (hlen : fs.length = N)
    (hfs : ∀ f ∈ fs, f.event_ = some i ∧ f.host_ctx_ = some ()) :
    fs.map (fun f => PjRtEvent.BlockHostUntilReady σ f (fun s => (Event.Set s e v).getD s))
      = List.replicate N (BlockOutcome.ok v true []) := by
  subst hlen
  apply map_const_eq_replicate
  intro f hf
  obtain ⟨hev, hctx⟩ := hfs f hf
  have hnotav : σ.valAt i = none := by simp [AVStore.valAt, hc, hu]
  have henv : ((Event.Set σ e v).getD σ).valAt i = some v := by
    simp [Event.Set, emplace, he, hc, hu, AVStore.valAt, AVStore.setCell]
  simp [PjRtEvent.BlockHostUntilReady, hev, hnotav, hctx, henv]

/-- Witness for C9 at a concrete input: two futures over the unresolved
cell 0; a single Set 7 lands while they wait; both calls return 7. -/
theorem concurrent_waiters_all_unblock_w :
    [exFuture, exFuture].map
      (fun f => PjRtEvent.BlockHostUntilReady exStore f
        (fun s => (Event.Set s exHandle 7).getD s))
      = List.replicate 2 (BlockOutcome.ok 7 true []) :=
  concurrent_waiters_all_unblock exStore exHandle 0 ⟨none, [], []⟩ 7 rfl rfl rfl
    2 [exFuture, exFuture] rfl
    (by
      intro g hg
      rcases List.mem_cons.mp hg with hg1 | hg2
      · subst hg1; exact ⟨rfl, rfl⟩
      · rcases List.mem_cons.mp hg2 with hg1 | hg3
        · subst hg1; exact ⟨rfl, rfl⟩
        · exact absurd hg3 (List.not_mem_nil g))

/-! ### Callback-delivery lemmas -/

theorem filter_fst_map_pair (l : List Nat) (id : Nat) (v : T) (h : id ∉ l) :
    (l.map (fun x => (x, v))).filter (fun p => p.1 == id) = [] := by
  induction l with
  | nil => rfl
  | cons a as ih =>
    rw [List.mem_cons, not_or] at h
    have ha : (a == id) = false := beq_eq_false_iff_ne.mpr (fun hh => h.1 hh.symm)
    simp only [List.map_cons, List.filter_cons, ha]
    exact ih h.2

theorem resolved_fired_stable_runOp (σ : AVStore T) (i id : Nat) (c : Cell T) (v : T)
    (hm : σ.mem i = some c) (hv : c.value = some v) (op : Op T) (ha : OpAvoidsId id op) :
    ∃ c2 : Cell T, (runOp σ op).mem i = some c2 ∧ c2.value = some v ∧
      c2.fired.filter (fun p => p.1 == id) = c.fired.filter (fun p => p.1 == id) := by
  cases op with
  | set e w =>
    cases he : e.avr with
    | none => exact ⟨c, by simp [runOp, Event.Set, emplace, he, hm], hv, rfl⟩
    | some j =>
      by_cases hij : j = i
      · subst hij
        exact ⟨c, by simp [runOp, Event.Set, emplace, he, hm, hv], hv, rfl⟩
      · cases hmj : σ.mem j with
        | none => exact ⟨c, by simp [runOp, Event.Set, emplace, he, hmj, hm], hv, rfl⟩
        | some cj =>
          cases hvj : cj.value with
          | some u =>
            exact ⟨c, by simp [runOp, Event.Set, emplace, he, hmj, hvj, hm], hv, rfl⟩
          | none =>
            exact ⟨c, by
              simp [runOp, Event.Set, emplace, he, hmj, hvj, AVStore.setCell,
                Ne.symm hij, hm], hv, rfl⟩
  | onReady r id2 =>
    have ha2 : id2 ≠ id := ha
    cases hr : r with
    | none => exact ⟨c, by simp [runOp, avrAndThen, hm], hv, rfl⟩
    | some j =>
      by_cases hij : j = i
      · subst hij
        refine ⟨⟨some v, c.pending, c.fired ++ [(id2, v)]⟩, ?_, rfl, ?_⟩
        · simp [runOp, avrAndThen, hm, hv, AVStore.setCell]
        · have hid2 : (id2 == id) = false := beq_eq_false_iff_ne.mpr ha2
          simp [List.filter_append, hid2]
      · cases hmj : σ.mem j with
        | none => exact ⟨c, by simp [runOp, avrAndThen, hmj, hm], hv, rfl⟩
        | some cj =>
          cases hvj : cj.value with
          | some u =>
            exact ⟨c, by
              simp [runOp, avrAndThen, hmj, hvj, AVStore.setCell, Ne.symm hij, hm],
              hv, rfl⟩
          | none =>
            exact ⟨c, by
              simp [runOp, avrAndThen, hmj, hvj, AVStore.setCell, Ne.symm hij, hm],
              hv, rfl⟩

theorem resolved_fired_stable_runOps (σ : AVStore T) (i id : Nat) (c : Cell T) (v : T)
    (hm : σ.mem i = some c) (hv : c.value = some v) (ops : List (Op T))
    (ha : ∀ op ∈ ops, OpAvoidsId id op) :
    ∃ c2 : Cell T, (runOps σ ops).mem i = some c2 ∧ c2.value = some v ∧
      c2.fired.filter (fun p => p.1 == id) = c.fired.filter (fun p => p.1 == id) := by
  induction ops generalizing σ c with
  | nil => exact ⟨c, hm, hv, rfl⟩
  | cons op ops ih =>
    obtain ⟨c1, hm1, hv1, hf1⟩ := resolved_fired_stable_runOp σ i id c v hm hv op
      (ha op (List.mem_cons_self op ops))
    obtain ⟨c2, hm2, hv2, hf2⟩ := ih (runOp σ op) c1 hm1 hv1
      (fun o ho => ha o (List.mem_cons_of_mem op ho))
    exact ⟨c2, hm2, hv2, hf2.trans hf1⟩

/-- C4: a callback registered through OnReady runs exactly once and
receives exactly the resolved value.  Take a cell whose fired log holds no
invocation of callback id and whose pending queue does not contain it.
First branch: registering before resolution queues the callback, and the
producer's Set v fires it with v — afterwards, under any further operations
that do not re-register the same callback, the delivery log for id is
exactly [v].  Second branch: registering after resolution (cell already
holding v) fires the callback inline, again leaving exactly [v]. -/
theorem onReady_callback_exactly_once (σ : AVStore T) (f : PjRtEvent T) (e : Event)
    (i id : Nat) (c : Cell T) (v : T)
    (hf : f.event_ = some i) (he : e.avr = some i) (hc : σ.mem i = some c)
    (hp : id ∉ c.pending) (hfi : c.fired.filter (fun p => p.1 == id) = []) :
    (c.value = none →
      ∀ ops : List (Op T), (∀ op ∈ ops, OpAvoidsId id op) →
        firedFor (runOps ((Event.Set ((PjRtEvent.OnReady σ f id).getD σ) e v).getD
            ((PjRtEvent.OnReady σ f id).getD σ)) ops) i id = [v]) ∧
    (c.value = some v →
      ∀ ops : List (Op T), (∀ op ∈ ops, OpAvoidsId id op) →
        firedFor (runOps ((PjRtEvent.OnReady σ f id).getD σ) ops) i id = [v]) := by
  have hidid : (id == id) = true := beq_self_eq_true id
  constructor
  · intro hcv ops ha
    have hm1 : ((PjRtEvent.OnReady σ f id).getD σ).mem i
        = some ⟨none, c.pending ++ [id], c.fired⟩ := by
      simp [PjRtEvent.OnReady, avrAndThen, hf, hc, hcv, AVStore.setCell]
    have hm2 : ((Event.Set ((PjRtEvent.OnReady σ f id).getD σ) e v).getD
          ((PjRtEvent.OnReady σ f id).getD σ)).mem i
        = some ⟨some v, [],
            c.fired ++ (c.pending ++ [id]).map (fun x => (x, v))⟩ := by
      simp [Event.Set, emplace, he, hm1, AVStore.setCell]
    have hfilter :
        (c.fired ++ (c.pending ++ [id]).map (fun x => (x, v))).filter
          (fun p => p.1 == id) = [(id, v)] := by
      rw [List.filter_append, hfi, List.map_append, List.filter_append,
        filter_fst_map_pair c.pending id v hp]
      simp [hidid]
    obtain ⟨c3, hm3, hv3, hf3⟩ := resolved_fired_stable_runOps _ i id _ v hm2 rfl ops ha
    rw [firedFor, hm3]
    show (c3.fired.filter (fun p => p.1 == id)).map Prod.snd = [v]
    rw [hf3]
    show ((c.fired ++ (c.pending ++ [id]).map (fun x => (x, v))).filter
        (fun p => p.1 == id)).map Prod.snd = [v]
    rw [hfilter]
    rfl
  · intro hcv ops ha
    have hm1 : ((PjRtEvent.OnReady σ f id).getD σ).mem i
        = some ⟨some v, c.pending, c.fired ++ [(id, v)]⟩ := by
      simp [PjRtEvent.OnReady, avrAndThen, hf, hc, hcv, AVStore.setCell]
    have hfilter : (c.fired ++ [(id, v)]).filter (fun p => p.1 == id) = [(id, v)] := by
      rw [List.filter_append, hfi]
      simp [hidid]
    obtain ⟨c3, hm3, hv3, hf3⟩ := resolved_fired_stable_runOps _ i id _ v hm1 rfl ops ha
    rw [firedFor, hm3]
    show (c3.fired.filter (fun p => p.1 == id)).map Prod.snd = [v]
    rw [hf3]
    show ((c.fired ++ [(id, v)]).filter (fun p => p.1 == id)).map Prod.snd = [v]
    rw [hfilter]
    rfl

/-- Witness for C4 at a concrete input: callback 3 registered on the
unresolved cell 0, then Set 7; the delivery log for callback 3 is exactly
[7]. -/
theorem onReady_callback_exactly_once_w :
    firedFor (runOps ((Event.Set ((PjRtEvent.OnReady exStore exFuture 3).getD exStore)
        exHandle 7).getD ((PjRtEvent.OnReady exStore exFuture 3).getD exStore)) [])
      0 3 = [7] :=
  (onReady_callback_exactly_once exStore exFuture exHandle 0 3 ⟨none, [], []⟩ 7
      rfl rfl rfl (by simp) rfl).1 rfl []
    (fun op h => absurd h (List.not_mem_nil op))

/-- C1 (refuted by the code): blocking on an unresolved future whose
producer resolves it with 7 while the thread waits does suspend and return
7, but the hook trace of the call is empty — the body of
BlockHostUntilReady contains no invocation of the stored on_block_start_ or
on_block_end_ handlers, even though the future here carries a real
on_block_start handler (returning key 42).  This contradicts the stated
behaviour (and the constructors' own comments) that on_block_start is
called once before blocking and on_block_end once after. -/
theorem blockHostUntilReady_invokes_no_hooks :
    PjRtEvent.BlockHostUntilReady exStore
      (PjRtEvent.ofEvent Nat PjRtEventContext.Create exHandle
        (fun _ => ⟨42⟩) (fun _ => ()))
      (fun s => (Event.Set s exHandle 7).getD s)
      = BlockOutcome.ok 7 true [] := rfl
